import Mathlib

/-!
# Hack CPU emulator (hackcpu.c / hackcpu.h): embedding and verified properties

The C code works on `uint16_t` registers and words, an `unsigned long long`
cycle counter and `int` sizes and error bitmasks.  Machine words are embedded
as natural numbers; every place where C truncates to 16 (or 64) bits is an
explicit `% 65536` (or `% 2 ^ 64`), and the theorems carry `< 65536`
hypotheses for the values whose C type is `uint16_t`.

Output parameters (`uint16_t *addressM`, ...) become fields of a result
structure; the mutated `CPU *` / `Computer *` becomes the new state in that
structure.  The `fprintf` diagnostics have no effect on the state or on the
returned values and are left out.
-/

namespace Hack

/-! ## Data model (hackcpu.h) -/

/-- The `CPU` struct: three `uint16_t` registers. -/
structure CPU where
  A : Nat
  D : Nat
  PC : Nat
  deriving DecidableEq, Repr

/-- The `Computer` struct.  `rom` and `ram` are the word arrays behind the two
pointers, as maps from index to word; `romsize` and `ramsize` are the `int`
size fields that guard every access; `cycles` is the `unsigned long long`
counter; `PC` and `A` are the fetch addresses latched by `cpu_tock`. -/
structure Computer where
  rom : Nat → Nat
  ram : Nat → Nat
  romsize : Int
  ramsize : Int
  cpu : CPU
  cycles : Nat
  PC : Nat
  A : Nat

/-- Error flag `#define ERR_READ_ROM 0x1`. -/
def ERR_READ_ROM : Nat := 0x1

/-- Error flag `#define ERR_READ_RAM 0x2`. -/
def ERR_READ_RAM : Nat := 0x2

/-- Error flag `#define ERR_WRITE_RAM 0x4`. -/
def ERR_WRITE_RAM : Nat := 0x4

/-- The C expression `~x` stored back into a `uint16_t`: the 16-bit
complement of a 16-bit word. -/
def not16 (x : Nat) : Nat := 65535 - x

/-! ## ALU (hackcpu.c, lines 108-131) -/

/-- The three outputs of `ALU`: `*ALUout`, `*zr`, `*ng`. -/
structure ALUResult where
  out : Nat
  zr : Bool
  ng : Bool
  deriving DecidableEq, Repr

/-- The function `ALU(x, y, comp, &out, &zr, &ng)`. -/
def ALU (x y comp : Nat) : ALUResult :=
  let x1 := if comp &&& 0x20 ≠ 0 then 0 else x
  let x2 := if comp &&& 0x10 ≠ 0 then not16 x1 else x1
  let y1 := if comp &&& 0x8 ≠ 0 then 0 else y
  let y2 := if comp &&& 0x4 ≠ 0 then not16 y1 else y1
  let out0 := if comp &&& 0x2 ≠ 0 then (x2 + y2) % 65536 else x2 &&& y2
  let out := if comp &&& 0x1 ≠ 0 then not16 out0 else out0
  { out := out
    zr := if out = 0 then true else false
    ng := if out &&& 0x8000 ≠ 0 then true else false }

/-! ## CPU (hackcpu.c, lines 12-94) -/

/-- The function `cpu_init`. -/
def cpu_init : CPU := { A := 0, D := 0, PC := 0 }

/-- The effect of `cpu_tick`: the updated registers and the three output
parameters `*addressM`, `*outM`, `*writeM`. -/
structure TickResult where
  cpu : CPU
  addressM : Nat
  outM : Nat
  writeM : Bool
  deriving DecidableEq, Repr

/-- The function `cpu_tick(cpu, instruction, inM, reset, &addressM, &outM, &writeM)`. -/
def cpu_tick (cpu : CPU) (instruction inM : Nat) (reset : Bool) : TickResult :=
  let a_instr : Bool := decide (instruction &&& 0x8000 = 0)
  let c_instr : Bool := !a_instr
  let jmp := instruction &&& 0x7
  let dst := (instruction &&& 0x38) >>> 3
  let comp := (instruction &&& 0xfc0) >>> 6
  let loadD : Bool := c_instr && decide (dst &&& 0x2 ≠ 0)
  let w : Bool := c_instr && decide (dst &&& 0x1 ≠ 0)
  let y := if instruction &&& (1 <<< 12) ≠ 0 then inM else cpu.A
  let r := ALU cpu.D y comp
  let out := r.out
  let zr := r.zr
  let ng := r.ng
  let loadPC : Bool :=
    c_instr &&
      ((decide (jmp &&& 0x4 ≠ 0) && ng) || (decide (jmp &&& 0x2 ≠ 0) && zr) ||
        (decide (jmp &&& 0x1 ≠ 0) && !zr && !ng))
  let oldA := cpu.A
  let newA := if a_instr then instruction else if dst &&& 0x4 ≠ 0 then out else cpu.A
  let newD := if loadD then out else cpu.D
  let newPC := if reset then 0 else if loadPC then oldA else (cpu.PC + 1) % 65536
  { cpu := { A := newA, D := newD, PC := newPC }
    addressM := oldA
    outM := out
    writeM := w }

/-- The two output parameters of `cpu_tock`: `*PC` and `*addressM`. -/
structure TockResult where
  PC : Nat
  addressM : Nat
  deriving DecidableEq, Repr

/-- The function `cpu_tock(cpu, &PC, &addressM)`. -/
def cpu_tock (cpu : CPU) : TockResult := { PC := cpu.PC, addressM := cpu.A }

/-! ## Computer (hackcpu.c, lines 139-218) -/

/-- The function `computer_init`: both arrays come from `calloc`, so every
word is 0. -/
def computer_init (romsize ramsize : Int) : Computer :=
  { rom := fun _ => 0
    ram := fun _ => 0
    romsize := romsize
    ramsize := ramsize
    cpu := cpu_init
    cycles := 0
    PC := 0
    A := 0 }

/-- The function `computer_reset`. -/
def computer_reset (c : Computer) : Computer :=
  let t := cpu_tick c.cpu 0 0 true
  let k := cpu_tock t.cpu
  { c with cycles := 0, cpu := t.cpu, PC := k.PC, A := k.addressM }

/-- The effect of `computer_ticktock`: the updated computer, the returned
`int` error bitmask and the three output parameters. -/
structure StepResult where
  c : Computer
  error : Nat
  addressM : Nat
  outM : Nat
  writeM : Bool

/-- The function `computer_ticktock(c, debug, &addressM, &outM, &writeM)`.
The flag `debug` only selects trace output. -/
def computer_ticktock (c : Computer) (_debug : Bool) : StepResult :=
  let instruction := if (c.PC : Int) < c.romsize then c.rom c.PC else 0
  let error0 : Nat := 0
  let error1 := if (c.PC : Int) < c.romsize then error0 else error0 ||| ERR_READ_ROM
  let inM := if (c.A : Int) < c.ramsize then c.ram c.A else 0
  let error2 := if (c.A : Int) < c.ramsize then error1 else error1 ||| ERR_READ_RAM
  let t := cpu_tick c.cpu instruction inM false
  let addr := t.addressM
  let out := t.outM
  let w := t.writeM
  let ram1 :=
    if w then
      if (addr : Int) < c.ramsize then (fun i => if i = addr then out else c.ram i) else c.ram
    else c.ram
  let error3 :=
    if w then
      if (addr : Int) < c.ramsize then error2 else error2 ||| ERR_READ_RAM
    else error2
  let k := cpu_tock t.cpu
  { c := { c with ram := ram1, cpu := t.cpu, PC := k.PC, A := k.addressM,
                  cycles := (c.cycles + 1) % 2 ^ 64 }
    error := error3
    addressM := addr
    outM := out
    writeM := w }

/-- The state after `n` successive calls of `computer_ticktock`. -/
def ticktocks (debug : Bool) : Nat → Computer → Computer
  | 0, c => c
  | n + 1, c => ticktocks debug n (computer_ticktock c debug).c

/-! ## Reference definitions, in the words of the specification

These name the instruction fields by bit number, as the specification does;
the theorems below relate them to what `cpu_tick` computes with masks. -/

/-- The second ALU operand of the specification: the memory value when the
"a" bit (bit 12) is set, else the current A register. -/
def spec_operand (cpu : CPU) (instruction inM : Nat) : Nat :=
  if instruction.testBit 12 = true then inM else cpu.A

/-- The ALU run of the specification: first operand D, second operand
`spec_operand`, control code the six bits 11..6 of the instruction. -/
def spec_alu (cpu : CPU) (instruction inM : Nat) : ALUResult :=
  ALU cpu.D (spec_operand cpu instruction inM) (instruction / 64 % 64)

/-- The jump condition of the specification: jump-if-negative (bit 2) and
negative, or jump-if-zero (bit 1) and zero, or jump-if-positive (bit 0) and
neither zero nor negative. -/
def spec_jump (instruction : Nat) (r : ALUResult) : Bool :=
  (instruction.testBit 2 && r.ng) || (instruction.testBit 1 && r.zr) ||
    (instruction.testBit 0 && !r.zr && !r.ng)

/-- The instruction fetch of the specification: the ROM word at the current
PC, or 0 when the PC is out of range. -/
def spec_fetch_instruction (c : Computer) : Nat :=
  if (c.PC : Int) < c.romsize then c.rom c.PC else 0

/-- The memory fetch of the specification: the RAM word at the current A, or
0 when A is out of range. -/
def spec_fetch_inM (c : Computer) : Nat :=
  if (c.A : Int) < c.ramsize then c.ram c.A else 0

/-- The rest of a step of the specification once the instruction word and
the memory value are fixed: run the CPU tick; if the returned write is
enabled and its address is in range, store the value into RAM; run the CPU
tock and latch the next fetch addresses; increment the cycle counter.  The
result is the new computer and the write address, value and enable. -/
def spec_execute (c : Computer) (instruction inM : Nat) : Computer × Nat × Nat × Bool :=
  let t := cpu_tick c.cpu instruction inM false
  let ram1 : Nat → Nat :=
    if t.writeM = true ∧ (t.addressM : Int) < c.ramsize then
      fun i => if i = t.addressM then t.outM else c.ram i
    else c.ram
  ({ rom := c.rom, ram := ram1, romsize := c.romsize, ramsize := c.ramsize,
     cpu := t.cpu, cycles := (c.cycles + 1) % 2 ^ 64, PC := t.cpu.PC, A := t.cpu.A },
   t.addressM, t.outM, t.writeM)

/-- A two-word program: `@1` (A-instruction, literal 1) then `M=1`
(C-instruction 0xEFC8: comp 111111, dest 001, jump 000). -/
def writeFaultProgram : Nat → Nat :=
  fun i => if i = 0 then 0x0001 else if i = 1 then 0xEFC8 else 0

/-- The computer made by `computer_init` with two ROM words and one RAM word,
loaded with `writeFaultProgram`, after `computer_reset` and one
`computer_ticktock`: A = 1, PC = 1, about to execute `M=1`. -/
def writeFaultComputer : Computer :=
  ticktocks false 1 (computer_reset { computer_init 2 1 with rom := writeFaultProgram })

/-- A 16-bit word read as a two's-complement integer. -/
def signed16 (w : Nat) : Int := if w < 32768 then (w : Int) else (w : Int) - 65536

/-! ## Memory-mapped helpers and the batch run (hackcpu.c, lines 224-258) -/

/-- The function `computer_mmio_get(c, addr)`. -/
def computer_mmio_get (c : Computer) (addr : Nat) : Nat :=
  if (addr : Int) < c.ramsize then c.ram addr else 0

/-- The function `computer_mmio_set(c, addr, val)`. -/
def computer_mmio_set (c : Computer) (addr val : Nat) : Computer :=
  if (addr : Int) < c.ramsize then
    { c with ram := fun i => if i = addr then val else c.ram i }
  else c

/-- How a call of `computer_run` ends: either the loop is left and the
function returns after dumping RAM (`dumped`, with the final computer), or
the process is ended by `exit(1)` inside the loop (`exited`, with the exit
status, the error bitmask of the last step and the computer at that
point). -/
inductive RunResult where
  | dumped (c : Computer)
  | exited (status : Nat) (err : Nat) (c : Computer)

/-- The `int maxcycles` as it takes part in `c->cycles < maxcycles`: the usual
arithmetic conversions turn it into an `unsigned long long`. -/
def maxcycles_u64 (maxcycles : Int) : Nat := (maxcycles % 2 ^ 64).toNat

/-- The `while` loop of `computer_run`.  The loop need not end (`maxcycles`
0), so the embedding counts evaluations of the loop condition with `fuel`
and returns `none` when it runs out. -/
def run_loop (debug ignore : Bool) (maxcycles : Int) : Nat → Computer → Option RunResult
  | 0, _ => none
  | fuel + 1, c =>
    if maxcycles = 0 ∨ c.cycles < maxcycles_u64 maxcycles then
      if (computer_ticktock c debug).error ≠ 0 ∧ ignore = false then
        some (RunResult.exited 1 (computer_ticktock c debug).error (computer_ticktock c debug).c)
      else run_loop debug ignore maxcycles fuel (computer_ticktock c debug).c
    else some (RunResult.dumped c)

/-- The function `computer_run(c, maxcycles, ramdump, debug, ignore)`; the dump
file name has no effect on the computer and is left out. -/
def computer_run (fuel : Nat) (c : Computer) (maxcycles : Int) (debug ignore : Bool) :
    Option RunResult :=
  run_loop debug ignore maxcycles fuel (computer_reset c)

/-- One call of the host interface on a computer: `computer_reset`,
`computer_ticktock` or `computer_mmio_set`. -/
inductive Op where
  | reset
  | ticktock (debug : Bool)
  | mmio_set (addr val : Nat)

/-- The computer after one host call. -/
def apply_op (c : Computer) : Op → Computer
  | Op.reset => computer_reset c
  | Op.ticktock debug => (computer_ticktock c debug).c
  | Op.mmio_set addr val => computer_mmio_set c addr val

/-- The computer after a sequence of host calls, in order. -/
def apply_ops (c : Computer) (ops : List Op) : Computer := ops.foldl apply_op c

/-- The two-word program of the end-to-end example: `@2` then `D=A`
(0xEC10: comp 110000, dest 010, jump 000). -/
def passThroughProgram : Nat → Nat :=
  fun i => if i = 0 then 0x0002 else if i = 1 then 0xEC10 else 0

/-- A computer holding `passThroughProgram`, with arbitrary register, RAM and
counter contents. -/
def passThroughComputer : Computer :=
  { rom := passThroughProgram
    ram := fun _ => 7
    romsize := 2
    ramsize := 4
    cpu := { A := 9, D := 11, PC := 13 }
    cycles := 99
    PC := 5
    A := 6 }

/-! ## ROM loader (hackcpu.c, lines 265-290)

The loader reads the file with the C library: `fgets` into a 100-byte
buffer, `strcspn` to cut the line at the first carriage return or newline,
`strtoul` in base 2.  The three are embedded as ISO C describes them
(7.21.7.2, 7.24.5.3, 7.22.1.4), on a text without NUL characters and with a
64-bit `unsigned long`.  The file is its list of characters; opening it and
the final dump of the ROM are left out. -/

/-- The C library predicate `isspace` in the "C" locale: space, tab, newline,
vertical tab, form feed, carriage return. -/
def isspace (ch : Char) : Bool :=
  ch = ' ' || (9 ≤ ch.toNat && ch.toNat ≤ 13)

/-- The characters `fgets` stores for a buffer with room for `room`
characters, and the rest of the input: it stops after a newline, at end of
input, or when the room is used up. -/
def fgets_line : Nat → List Char → List Char × List Char
  | 0, rest => ([], rest)
  | _ + 1, [] => ([], [])
  | room + 1, ch :: rest =>
    if ch = Char.ofNat 10 then ([ch], rest)
    else ((fgets_line room rest).1.cons ch, (fgets_line room rest).2)

/-- The C library function `fgets(line, size, fp)`: `none` (a null pointer) at
end of input, else the string read (at most `size - 1` characters) and the
rest of the input. -/
def fgets (size : Nat) (input : List Char) : Option (List Char × List Char) :=
  match input with
  | [] => none
  | _ :: _ => some (fgets_line (size - 1) input)

/-- The statement `line[strcspn(line, "\r\n")] = 0`: the string is cut at its
first carriage return or newline. -/
def cut_at_crlf (line : List Char) : List Char :=
  line.takeWhile (fun ch => !(ch = Char.ofNat 13 || ch = Char.ofNat 10))

/-- A binary digit. -/
def isBinaryDigit (ch : Char) : Bool := ch = '0' || ch = '1'

/-- The value of a string of binary digits, most significant first. -/
def binaryValue (digits : List Char) : Nat :=
  digits.foldl (fun acc ch => 2 * acc + (if ch = '1' then 1 else 0)) 0

/-- The C library call `strtoul(s, &end, 2)`: the returned value and the
string `end` points to.  White space is skipped, then an optional sign, then
the longest run of binary digits; without any digit the value is 0 and `end`
is `s`; a value that does not fit is ULONG_MAX; after a minus sign the value
is negated in `unsigned long`. -/
def strtoul_base2 (s : List Char) : Nat × List Char :=
  let body := s.dropWhile isspace
  let negative : Bool := match body with
    | ch :: _ => ch = '-'
    | [] => false
  let unsigned_part := match body with
    | ch :: rest => if ch = '-' ∨ ch = '+' then rest else body
    | [] => body
  let digits := unsigned_part.takeWhile isBinaryDigit
  let tail := unsigned_part.dropWhile isBinaryDigit
  if digits = [] then (0, s)
  else if 2 ^ 64 ≤ binaryValue digits then (2 ^ 64 - 1, tail)
  else if negative then ((2 ^ 64 - binaryValue digits) % 2 ^ 64, tail)
  else (binaryValue digits, tail)

/-- How `computer_loadrom` ends: it returns with the loaded computer
(`loaded`), or the process is ended by `exit(2)` after the message naming a
line number (`invalid_input`, with that number and the computer so far). -/
inductive LoadResult where
  | loaded (c : Computer)
  | invalid_input (line : Nat) (c : Computer)

/-- The `while (fgets(...))` loop of `computer_loadrom`, from the local
`address` on.  Every pass consumes at least one character; `fuel` bounds the
number of passes. -/
def loadrom_loop : Nat → List Char → Nat → Computer → Option LoadResult
  | 0, _, _, _ => none
  | fuel + 1, input, address, c =>
    match fgets 100 input with
    | none => some (LoadResult.loaded c)
    | some (raw, rest) =>
      if (strtoul_base2 (cut_at_crlf raw)).2 ≠ [] then
        some (LoadResult.invalid_input (address + 1) c)
      else
        loadrom_loop fuel rest (address + 1)
          { c with rom := fun i =>
              if i = address then (strtoul_base2 (cut_at_crlf raw)).1 &&& 0xffff else c.rom i }

/-- The function `computer_loadrom(c, filename)` on the text of the file. -/
def computer_loadrom (c : Computer) (text : List Char) : Option LoadResult :=
  loadrom_loop (text.length + 1) text 0 c

/-- The ROM word at `index` after a load that returned, `none` when the load
ended the process or ran out of fuel. -/
def loaded_word (r : Option LoadResult) (index : Nat) : Option Nat :=
  match r with
  | some (LoadResult.loaded c) => some (c.rom index)
  | _ => none

/-- The line number named by a load that ended the process, `none`
otherwise. -/
def invalid_line (r : Option LoadResult) : Option Nat :=
  match r with
  | some (LoadResult.invalid_input line _) => some line
  | _ => none

/-! ## Bit-field lemmas

The code selects instruction fields with masks and shifts; the statements
below name the same fields by bit number (`Nat.testBit`) and by division. -/

theorem and_two_pow_ne_zero (n k : Nat) : (n &&& 2 ^ k ≠ 0) ↔ n.testBit k = true := by
  rw [Nat.and_two_pow]
  cases h : n.testBit k <;> simp

theorem and_two_pow_eq_zero (n k : Nat) : (n &&& 2 ^ k = 0) ↔ n.testBit k = false := by
  have h := and_two_pow_ne_zero n k
  constructor
  · intro h0
    cases hb : n.testBit k
    · rfl
    · exact absurd h0 (h.mpr hb)
  · intro hf
    by_contra hc
    rw [h.mp hc] at hf
    exact Bool.noConfusion hf

theorem mask8000_eq_zero (n : Nat) : (n &&& 0x8000 = 0) ↔ n.testBit 15 = false :=
  and_two_pow_eq_zero n 15

theorem mask8000_ne_zero (n : Nat) : (n &&& 0x8000 ≠ 0) ↔ n.testBit 15 = true :=
  and_two_pow_ne_zero n 15

theorem mask_a_bit (n : Nat) : (n &&& (1 <<< 12) ≠ 0) ↔ n.testBit 12 = true :=
  and_two_pow_ne_zero n 12

theorem field_comp (n : Nat) : (n &&& 0xfc0) >>> 6 = n / 64 % 64 := by
  apply Nat.eq_of_testBit_eq
  intro i
  have e : n / 64 % 64 = (n >>> 6) % 2 ^ 6 := by
    rw [Nat.shiftRight_eq_div_pow]; norm_num
  rw [e, Nat.testBit_shiftRight, Nat.testBit_and, Nat.testBit_mod_two_pow,
    Nat.testBit_shiftRight]
  have m : (0xfc0 : Nat).testBit (6 + i) = decide (i < 6) := by
    have e2 : (0xfc0 : Nat) = (2 ^ 6 - 1) <<< 6 := by decide
    rw [e2, Nat.testBit_shiftLeft]
    have : 6 + i - 6 = i := by omega
    rw [this, Nat.testBit_two_pow_sub_one]
    simp
  rw [m, Bool.and_comm]

theorem field_dst_bit (n k : Nat) (hk : k < 3) :
    (((n &&& 0x38) >>> 3) &&& 2 ^ k ≠ 0) ↔ n.testBit (3 + k) = true := by
  rw [and_two_pow_ne_zero, Nat.testBit_shiftRight, Nat.testBit_and]
  have : (0x38 : Nat).testBit (3 + k) = true := by
    interval_cases k <;> decide
  rw [this, Bool.and_true]

theorem field_jmp_bit (n k : Nat) (hk : k < 3) :
    ((n &&& 0x7) &&& 2 ^ k ≠ 0) ↔ n.testBit k = true := by
  rw [and_two_pow_ne_zero, Nat.testBit_and]
  have : (0x7 : Nat).testBit k = true := by
    interval_cases k <;> decide
  rw [this, Bool.and_true]

theorem testBit15_word (n : Nat) (h : n < 65536) : n.testBit 15 = decide (32768 ≤ n) := by
  rw [Nat.testBit_to_div_mod]
  congr 1
  apply propext
  constructor <;> intro h1 <;> omega

theorem decide_ne_zero_eq_testBit (m : Nat) (b : Bool) (h : (m ≠ 0) ↔ b = true) :
    decide (m ≠ 0) = b := by
  cases b
  · simp only [decide_eq_false_iff_not]
    intro hm
    exact absurd (h.mp hm) (by simp)
  · simp only [decide_eq_true_eq]
    exact h.mpr rfl

theorem dst_writeA (n : Nat) : (((n &&& 0x38) >>> 3) &&& 0x4 ≠ 0) ↔ n.testBit 5 = true :=
  field_dst_bit n 2 (by decide)

theorem dst_writeD (n : Nat) : (((n &&& 0x38) >>> 3) &&& 0x2 ≠ 0) ↔ n.testBit 4 = true :=
  field_dst_bit n 1 (by decide)

theorem dst_writeM (n : Nat) : (((n &&& 0x38) >>> 3) &&& 0x1 ≠ 0) ↔ n.testBit 3 = true :=
  field_dst_bit n 0 (by decide)

theorem jmp_neg (n : Nat) : ((n &&& 0x7) &&& 0x4 ≠ 0) ↔ n.testBit 2 = true :=
  field_jmp_bit n 2 (by decide)

theorem jmp_zero (n : Nat) : ((n &&& 0x7) &&& 0x2 ≠ 0) ↔ n.testBit 1 = true :=
  field_jmp_bit n 1 (by decide)

theorem jmp_pos (n : Nat) : ((n &&& 0x7) &&& 0x1 ≠ 0) ↔ n.testBit 0 = true :=
  field_jmp_bit n 0 (by decide)

/-! ## The decoded form of `cpu_tick`

One equation that replaces every mask of `cpu_tick` by the bit it tests. -/

theorem cpu_tick_decoded (cpu : CPU) (instruction inM : Nat) (reset : Bool) :
    cpu_tick cpu instruction inM reset =
      { cpu :=
          { A := if instruction.testBit 15 = false then instruction
                 else if instruction.testBit 5 = true then (spec_alu cpu instruction inM).out
                 else cpu.A
            D := if (instruction.testBit 15 && instruction.testBit 4) = true then
                   (spec_alu cpu instruction inM).out
                 else cpu.D
            PC := if reset = true then 0
                  else if (instruction.testBit 15 &&
                    spec_jump instruction (spec_alu cpu instruction inM)) = true
                  then cpu.A else (cpu.PC + 1) % 65536 }
        addressM := cpu.A
        outM := (spec_alu cpu instruction inM).out
        writeM := instruction.testBit 15 && instruction.testBit 3 } := by
  unfold spec_jump spec_alu spec_operand
  unfold cpu_tick
  have e15 : decide (instruction &&& 0x8000 = 0) = !instruction.testBit 15 := by
    cases hb : instruction.testBit 15
    · simpa using (mask8000_eq_zero instruction).mpr hb
    · have := (mask8000_ne_zero instruction).mpr hb
      simpa using this
  have eD := decide_ne_zero_eq_testBit _ _ (dst_writeD instruction)
  have eM := decide_ne_zero_eq_testBit _ _ (dst_writeM instruction)
  have jn := decide_ne_zero_eq_testBit _ _ (jmp_neg instruction)
  have jz := decide_ne_zero_eq_testBit _ _ (jmp_zero instruction)
  have jp := decide_ne_zero_eq_testBit _ _ (jmp_pos instruction)
  simp only [e15, eD, eM, jn, jz, jp, field_comp, mask_a_bit, dst_writeA, Bool.not_not,
    Bool.not_eq_true']

/-! ## CPU step: A-instructions, C-instructions, jumps and reset -/

/-- C1: for an A-instruction (a 16-bit word with bit 15 clear), one `cpu_tick`
from any state leaves A equal to the 15-bit literal, D unchanged, requests no
memory write, and sets PC to 0 under reset and to (PC + 1) mod 2^16
otherwise. -/
theorem cpu_tick_a_instruction (cpu : CPU) (instruction inM : Nat) (reset : Bool)
    (hword : instruction < 65536) (hkind : instruction.testBit 15 = false) :
    (cpu_tick cpu instruction inM reset).cpu.A = instruction % 32768 ∧
    (cpu_tick cpu instruction inM reset).cpu.D = cpu.D ∧
    (cpu_tick cpu instruction inM reset).writeM = false ∧
    (cpu_tick cpu instruction inM reset).cpu.PC =
      (if reset = true then 0 else (cpu.PC + 1) % 65536) := by
  rw [cpu_tick_decoded]
  have hlt : instruction < 32768 := by
    have h := testBit15_word instruction hword
    rw [hkind] at h
    have := of_decide_eq_false h.symm
    omega
  simp [hkind, Nat.mod_eq_of_lt hlt]

/-- C1 witness: the A-instruction 0x1234 from A = 5, D = 7, PC = 65535. -/
theorem cpu_tick_a_instruction_witness :
    ((0x1234 : Nat) < 65536 ∧ (0x1234 : Nat).testBit 15 = false) ∧
    ((cpu_tick ⟨5, 7, 65535⟩ 0x1234 99 false).cpu.A = 0x1234 % 32768 ∧
     (cpu_tick ⟨5, 7, 65535⟩ 0x1234 99 false).cpu.D = (⟨5, 7, 65535⟩ : CPU).D ∧
     (cpu_tick ⟨5, 7, 65535⟩ 0x1234 99 false).writeM = false ∧
     (cpu_tick ⟨5, 7, 65535⟩ 0x1234 99 false).cpu.PC =
       (if false = true then 0 else ((⟨5, 7, 65535⟩ : CPU).PC + 1) % 65536)) :=
  ⟨⟨by decide, by decide⟩,
    cpu_tick_a_instruction ⟨5, 7, 65535⟩ 0x1234 99 false (by decide) (by decide)⟩

/-- C2: for a C-instruction (bit 15 set), with y the memory value if bit 12 is
set and the old A otherwise and out the ALU result on (old D, y, bits 11..6),
`cpu_tick` returns the write request (old A, out, bit 3), the new A is out if
bit 5 is set and the old A otherwise, and the new D is out if bit 4 is set
and the old D otherwise. -/
theorem cpu_tick_c_instruction (cpu : CPU) (instruction inM : Nat) (reset : Bool)
    (hkind : instruction.testBit 15 = true) :
    (cpu_tick cpu instruction inM reset).addressM = cpu.A ∧
    (cpu_tick cpu instruction inM reset).outM =
      (ALU cpu.D (if instruction.testBit 12 = true then inM else cpu.A)
        (instruction / 64 % 64)).out ∧
    (cpu_tick cpu instruction inM reset).writeM = instruction.testBit 3 ∧
    (cpu_tick cpu instruction inM reset).cpu.A =
      (if instruction.testBit 5 = true then
        (ALU cpu.D (if instruction.testBit 12 = true then inM else cpu.A)
          (instruction / 64 % 64)).out
       else cpu.A) ∧
    (cpu_tick cpu instruction inM reset).cpu.D =
      (if instruction.testBit 4 = true then
        (ALU cpu.D (if instruction.testBit 12 = true then inM else cpu.A)
          (instruction / 64 % 64)).out
       else cpu.D) := by
  rw [cpu_tick_decoded]
  simp [hkind, spec_alu, spec_operand]

/-- C2 witness: the instruction 0xFDE8 (AM = M + 1, write-A and write-M both set)
from A = 5, D = 7 with memory value 9: the write goes to the old A = 5 while
the new A is 10. -/
theorem cpu_tick_c_instruction_witness :
    (0xFDE8 : Nat).testBit 15 = true ∧
    ((cpu_tick ⟨5, 7, 3⟩ 0xFDE8 9 false).addressM = 5 ∧
     (cpu_tick ⟨5, 7, 3⟩ 0xFDE8 9 false).cpu.A = 10 ∧
     (cpu_tick ⟨5, 7, 3⟩ 0xFDE8 9 false).writeM = true) :=
  ⟨by decide,
    by
      have h := cpu_tick_c_instruction ⟨5, 7, 3⟩ 0xFDE8 9 false (by decide)
      refine ⟨h.1, ?_, ?_⟩
      · rw [h.2.2.2.1]; decide
      · rw [h.2.2.1]; decide⟩

/-- C3: for a C-instruction executed with reset not asserted, when the jump
condition holds (bit 2 and ALU negative, or bit 1 and ALU zero, or bit 0 and
the ALU result neither zero nor negative) the PC after `cpu_tick` is the value
A held before the step, whatever the step writes to A; when it does not hold
the PC after the step is (old PC + 1) mod 2^16. -/
theorem cpu_tick_jump_target (cpu : CPU) (instruction inM : Nat)
    (hkind : instruction.testBit 15 = true) :
    (((instruction.testBit 2 = true ∧ (spec_alu cpu instruction inM).ng = true) ∨
      (instruction.testBit 1 = true ∧ (spec_alu cpu instruction inM).zr = true) ∨
      (instruction.testBit 0 = true ∧ (spec_alu cpu instruction inM).zr = false ∧
        (spec_alu cpu instruction inM).ng = false)) →
      (cpu_tick cpu instruction inM false).cpu.PC = cpu.A) ∧
    (¬ ((instruction.testBit 2 = true ∧ (spec_alu cpu instruction inM).ng = true) ∨
      (instruction.testBit 1 = true ∧ (spec_alu cpu instruction inM).zr = true) ∨
      (instruction.testBit 0 = true ∧ (spec_alu cpu instruction inM).zr = false ∧
        (spec_alu cpu instruction inM).ng = false)) →
      (cpu_tick cpu instruction inM false).cpu.PC = (cpu.PC + 1) % 65536) := by
  rw [cpu_tick_decoded]
  simp only [hkind, Bool.true_and, spec_jump]
  cases instruction.testBit 2 <;> cases instruction.testBit 1 <;>
    cases instruction.testBit 0 <;> cases (spec_alu cpu instruction inM).ng <;>
    cases (spec_alu cpu instruction inM).zr <;> simp

/-- C3 witness: the instruction 0xFDEF (AM = M + 1 with jump bits 111) from
A = 5, PC = 3 with memory value 9: the step writes 10 to A and jumps to the
old A = 5. -/
theorem cpu_tick_jump_target_witness :
    (0xFDEF : Nat).testBit 15 = true ∧
    ((cpu_tick ⟨5, 7, 3⟩ 0xFDEF 9 false).cpu.PC = 5 ∧
     (cpu_tick ⟨5, 7, 3⟩ 0xFDEF 9 false).cpu.A = 10) :=
  ⟨by decide,
    ⟨(cpu_tick_jump_target ⟨5, 7, 3⟩ 0xFDEF 9 (by decide)).1 (by decide), by decide⟩⟩

/-- C4: `cpu_tick` with reset asserted leaves PC = 0 for every state, every
instruction and every memory value, and its A and D are those of the same
call with reset not asserted. -/
theorem cpu_tick_reset_overrides (cpu : CPU) (instruction inM : Nat) :
    (cpu_tick cpu instruction inM true).cpu.PC = 0 ∧
    (cpu_tick cpu instruction inM true).cpu.A = (cpu_tick cpu instruction inM false).cpu.A ∧
    (cpu_tick cpu instruction inM true).cpu.D = (cpu_tick cpu instruction inM false).cpu.D := by
  simp [cpu_tick]

/-! ## ALU -/

theorem testBit_high (x i : Nat) (hx : x < 65536) (hi : 16 ≤ i) : x.testBit i = false := by
  have hp : 2 ^ 16 ≤ 2 ^ i := Nat.pow_le_pow_right (by decide) hi
  exact Nat.testBit_lt_two_pow (lt_of_lt_of_le (show x < 2 ^ 16 from hx) hp)

theorem not16_testBit (x i : Nat) (hx : x < 65536) :
    (not16 x).testBit i = (decide (i < 16) && !x.testBit i) := by
  have e : not16 x = 2 ^ 16 - (x + 1) := by unfold not16; omega
  rw [e]
  exact Nat.testBit_two_pow_sub_succ (by omega) i

theorem not16_eq_xor (x : Nat) (hx : x < 65536) : not16 x = x ^^^ 0xFFFF := by
  apply Nat.eq_of_testBit_eq
  intro i
  have e : (0xFFFF : Nat) = 2 ^ 16 - 1 := by decide
  rw [not16_testBit x i hx, Nat.testBit_xor, e, Nat.testBit_two_pow_sub_one]
  by_cases hi : i < 16
  · cases x.testBit i <;> simp [hi]
  · have hx2 : x.testBit i = false := testBit_high x i hx (by omega)
    simp [hi, hx2]

theorem not16_and_not16 (x y : Nat) (hx : x < 65536) (hy : y < 65536) :
    not16 (not16 x &&& not16 y) = x ||| y := by
  have hn : not16 x &&& not16 y < 65536 :=
    lt_of_le_of_lt Nat.and_le_left (by unfold not16; omega)
  apply Nat.eq_of_testBit_eq
  intro i
  rw [not16_testBit _ i hn, Nat.testBit_and, not16_testBit x i hx, not16_testBit y i hy,
    Nat.testBit_or]
  by_cases hi : i < 16
  · cases x.testBit i <;> cases y.testBit i <;> simp [hi]
  · have hx2 : x.testBit i = false := testBit_high x i hx (by omega)
    have hy2 : y.testBit i = false := testBit_high y i hy (by omega)
    simp [hi, hx2, hy2]

theorem and_65535_word (y : Nat) (hy : y < 65536) : 65535 &&& y = y := by
  have e : (65535 : Nat) = 2 ^ 16 - 1 := by decide
  rw [Nat.and_comm, e, Nat.and_pow_two_sub_one_eq_mod]
  exact Nat.mod_eq_of_lt hy

theorem ALU_zr (x y comp : Nat) : (ALU x y comp).zr = decide ((ALU x y comp).out = 0) := by
  show (if (ALU x y comp).out = 0 then true else false) = _
  split <;> simp_all

theorem ALU_ng (x y comp : Nat) : (ALU x y comp).ng = (ALU x y comp).out.testBit 15 := by
  show (if (ALU x y comp).out &&& 0x8000 ≠ 0 then true else false) = _
  split
  · rename_i h
    exact ((mask8000_ne_zero _).mp h).symm
  · rename_i h
    exact ((mask8000_eq_zero _).mp (not_not.mp h)).symm

theorem ALU_out_word (x y comp : Nat) (hx : x < 65536) :
    (ALU x y comp).out < 65536 := by
  have hnot : ∀ a : Nat, not16 a < 65536 := fun a => by unfold not16; omega
  have hzero : ∀ (m a : Nat), a < 65536 → (if comp &&& m ≠ 0 then 0 else a) < 65536 := by
    intro m a ha
    split
    · decide
    · exact ha
  have hneg : ∀ (m a : Nat), a < 65536 → (if comp &&& m ≠ 0 then not16 a else a) < 65536 := by
    intro m a ha
    split
    · exact hnot a
    · exact ha
  have hop : ∀ a b : Nat, a < 65536 →
      (if comp &&& 0x2 ≠ 0 then (a + b) % 65536 else a &&& b) < 65536 := by
    intro a b ha
    split
    · exact Nat.mod_lt _ (by decide)
    · exact lt_of_le_of_lt Nat.and_le_left ha
  exact hneg 0x1 _ (hop _ _ (hneg 0x10 _ (hzero 0x20 x hx)))

/-- C5: on 16-bit operands the ALU computes the documented Hack operations,
with arithmetic modulo 2^16: the constants 0, 1, -1, the operands x and y,
their bitwise complements, their negations, x+1, y+1, x-1, y-1, x+y, x-y,
y-x, x AND y and x OR y, each for its control code. -/
theorem ALU_documented_operations (x y : Nat) (hx : x < 65536) (hy : y < 65536) :
    (ALU x y 0b101010).out = 0 ∧
    (ALU x y 0b111111).out = 1 ∧
    (ALU x y 0b111010).out = 0xFFFF ∧
    (ALU x y 0b001100).out = x ∧
    (ALU x y 0b110000).out = y ∧
    (ALU x y 0b001101).out = x ^^^ 0xFFFF ∧
    (ALU x y 0b110001).out = y ^^^ 0xFFFF ∧
    ((ALU x y 0b001111).out : Int) = (-(x : Int)) % 65536 ∧
    ((ALU x y 0b110011).out : Int) = (-(y : Int)) % 65536 ∧
    (ALU x y 0b011111).out = (x + 1) % 65536 ∧
    (ALU x y 0b110111).out = (y + 1) % 65536 ∧
    ((ALU x y 0b001110).out : Int) = ((x : Int) - 1) % 65536 ∧
    ((ALU x y 0b110010).out : Int) = ((y : Int) - 1) % 65536 ∧
    (ALU x y 0b000010).out = (x + y) % 65536 ∧
    ((ALU x y 0b010011).out : Int) = ((x : Int) - (y : Int)) % 65536 ∧
    ((ALU x y 0b000111).out : Int) = ((y : Int) - (x : Int)) % 65536 ∧
    (ALU x y 0b000000).out = x &&& y ∧
    (ALU x y 0b010101).out = x ||| y := by
  have hax := and_65535_word x hx
  have hay := and_65535_word y hy
  have hax2 : x &&& 65535 = x := by rw [Nat.and_comm]; exact hax
  have hnx := not16_eq_xor x hx
  have hny := not16_eq_xor y hy
  have hor := not16_and_not16 x y hx hy
  refine ⟨?_, ?_, ?_, ?_, ?_, ?_, ?_, ?_, ?_, ?_, ?_, ?_, ?_, ?_, ?_, ?_, ?_, ?_⟩
  · simp +decide [ALU, not16]
  · simp +decide [ALU, not16]
  · simp +decide [ALU, not16]
  · simp +decide [ALU, not16, hax2]
  · simp +decide [ALU, not16, hay]
  · rw [← hnx]; simp +decide [ALU, not16, hax2]
  · rw [← hny]; simp +decide [ALU, not16, hay]
  · simp +decide [ALU, not16]; omega
  · simp +decide [ALU, not16]; omega
  · simp +decide [ALU, not16]; omega
  · simp +decide [ALU, not16]; omega
  · simp +decide [ALU, not16]; omega
  · simp +decide [ALU, not16]; omega
  · simp +decide [ALU, not16]
  · simp +decide [ALU, not16]; omega
  · simp +decide [ALU, not16]; omega
  · simp +decide [ALU, not16]
  · simp +decide only [ALU]; simpa using hor

/-- C5 witness: the operands x = 7 and y = 65535 (that is, -1): x + y is 6 and
x - 1 is 6. -/
theorem ALU_documented_operations_witness :
    ((7 : Nat) < 65536 ∧ (65535 : Nat) < 65536) ∧
    ((ALU 7 65535 0b000010).out = (7 + 65535) % 65536 ∧ (ALU 7 65535 0b101010).out = 0) :=
  ⟨⟨by decide, by decide⟩,
    ⟨(ALU_documented_operations 7 65535 (by decide) (by decide)).2.2.2.2.2.2.2.2.2.2.2.2.2.1,
     (ALU_documented_operations 7 65535 (by decide) (by decide)).1⟩⟩

/-- C6: for every 16-bit x, every y and every control code, the zero flag of
the ALU is true exactly when the result is 0, the negative flag is true
exactly when bit 15 of the result is set, which is when the 16-bit result read
in two's complement is negative; the two flags are never both true. -/
theorem ALU_flags (x y comp : Nat) (hx : x < 65536) :
    ((ALU x y comp).zr = true ↔ (ALU x y comp).out = 0) ∧
    ((ALU x y comp).ng = true ↔ (ALU x y comp).out.testBit 15 = true) ∧
    (ALU x y comp).out < 65536 ∧
    ((ALU x y comp).ng = true ↔ signed16 (ALU x y comp).out < 0) ∧
    ¬ ((ALU x y comp).zr = true ∧ (ALU x y comp).ng = true) := by
  have hw := ALU_out_word x y comp hx
  have hz := ALU_zr x y comp
  have hn := ALU_ng x y comp
  have h15 := testBit15_word _ hw
  refine ⟨?_, ?_, hw, ?_, ?_⟩
  · rw [hz]; simp
  · rw [hn]
  · rw [hn, h15]
    unfold signed16
    split <;> simp <;> omega
  · rw [hz, hn, h15]
    simp
    intro h0
    omega

/-- C6 witness: the operands x = 1, y = 2 with the control code of x - y give
the result 65535, that is -1, with the negative flag set. -/
theorem ALU_flags_witness :
    (1 : Nat) < 65536 ∧
    (((ALU 1 2 0b010011).ng = true ↔ signed16 (ALU 1 2 0b010011).out < 0) ∧
     (ALU 1 2 0b010011).ng = true ∧ (ALU 1 2 0b010011).out = 65535) :=
  ⟨by decide, ⟨(ALU_flags 1 2 0b010011 (by decide)).2.2.2.1, by decide, by decide⟩⟩

/-! ## Computer step -/

/-- C7: evaluation at the failing input.  In `writeFaultComputer` (one RAM
word, A = 1) the step executes `M=1`: the tick requests a write at address 1,
which is not below ramsize = 1, and the returned bitmask is 2 (ERR_READ_RAM):
the flag ERR_WRITE_RAM (4) is not set. -/
theorem computer_ticktock_write_fault :
    (computer_ticktock writeFaultComputer false).writeM = true ∧
    (computer_ticktock writeFaultComputer false).addressM = 1 ∧
    writeFaultComputer.ramsize = 1 ∧
    (computer_ticktock writeFaultComputer false).error = ERR_READ_RAM ∧
    (computer_ticktock writeFaultComputer false).error &&& ERR_WRITE_RAM = 0 := by
  decide

/-- The bitmask returned by `computer_ticktock` never has ERR_WRITE_RAM set. -/
theorem computer_ticktock_error_no_write_flag (c : Computer) (debug : Bool) :
    (computer_ticktock c debug).error &&& ERR_WRITE_RAM = 0 := by
  unfold computer_ticktock
  simp only [ERR_READ_ROM, ERR_READ_RAM, ERR_WRITE_RAM]
  split_ifs <;> decide

theorem computer_ticktock_eq_spec_execute (c : Computer) (debug : Bool) :
    ((computer_ticktock c debug).c, (computer_ticktock c debug).addressM,
      (computer_ticktock c debug).outM, (computer_ticktock c debug).writeM) =
    spec_execute c (spec_fetch_instruction c) (spec_fetch_inM c) := by
  unfold computer_ticktock spec_execute spec_fetch_instruction spec_fetch_inM cpu_tock
  simp only []
  cases hw : (cpu_tick c.cpu (if (c.PC : Int) < c.romsize then c.rom c.PC else 0)
      (if (c.A : Int) < c.ramsize then c.ram c.A else 0) false).writeM <;>
    by_cases ha : ((cpu_tick c.cpu (if (c.PC : Int) < c.romsize then c.rom c.PC else 0)
      (if (c.A : Int) < c.ramsize then c.ram c.A else 0) false).addressM : Int) < c.ramsize <;>
    simp [ha]

theorem computer_ticktock_rom_flag (c : Computer) (debug : Bool) :
    (computer_ticktock c debug).error &&& ERR_READ_ROM =
      if (c.PC : Int) < c.romsize then 0 else ERR_READ_ROM := by
  unfold computer_ticktock
  simp only [ERR_READ_ROM, ERR_READ_RAM]
  split_ifs <;> decide

theorem computer_ticktock_ram_flag (c : Computer) (debug : Bool)
    (h : ¬ (c.A : Int) < c.ramsize) :
    (computer_ticktock c debug).error &&& ERR_READ_RAM = ERR_READ_RAM := by
  unfold computer_ticktock
  simp only [ERR_READ_ROM, ERR_READ_RAM, if_neg h]
  split_ifs <;> decide

/-- C8: one `computer_ticktock` always returns the result of executing the
fetched words: if the fetch PC is not below romsize the step is the one for
the instruction word 0 and ERR_READ_ROM is set in the bitmask; if PC is below
romsize the step is the one for rom[PC] and ERR_READ_ROM is not set; if the
fetch address A is not below ramsize the value 0 is passed as inM and
ERR_READ_RAM is set; if A is below ramsize, ram[A] is passed as inM. -/
theorem computer_ticktock_fetch (c : Computer) (debug : Bool) :
    (¬ (c.PC : Int) < c.romsize →
      ((computer_ticktock c debug).c, (computer_ticktock c debug).addressM,
        (computer_ticktock c debug).outM, (computer_ticktock c debug).writeM) =
        spec_execute c 0 (spec_fetch_inM c) ∧
      (computer_ticktock c debug).error &&& ERR_READ_ROM = ERR_READ_ROM) ∧
    ((c.PC : Int) < c.romsize →
      ((computer_ticktock c debug).c, (computer_ticktock c debug).addressM,
        (computer_ticktock c debug).outM, (computer_ticktock c debug).writeM) =
        spec_execute c (c.rom c.PC) (spec_fetch_inM c) ∧
      (computer_ticktock c debug).error &&& ERR_READ_ROM = 0) ∧
    (¬ (c.A : Int) < c.ramsize →
      ((computer_ticktock c debug).c, (computer_ticktock c debug).addressM,
        (computer_ticktock c debug).outM, (computer_ticktock c debug).writeM) =
        spec_execute c (spec_fetch_instruction c) 0 ∧
      (computer_ticktock c debug).error &&& ERR_READ_RAM = ERR_READ_RAM) ∧
    ((c.A : Int) < c.ramsize →
      ((computer_ticktock c debug).c, (computer_ticktock c debug).addressM,
        (computer_ticktock c debug).outM, (computer_ticktock c debug).writeM) =
        spec_execute c (spec_fetch_instruction c) (c.ram c.A)) := by
  have hs := computer_ticktock_eq_spec_execute c debug
  have hrom := computer_ticktock_rom_flag c debug
  refine ⟨?_, ?_, ?_, ?_⟩
  · intro h
    refine ⟨?_, ?_⟩
    · rw [hs]; simp [spec_fetch_instruction, h]
    · rw [hrom, if_neg h]
  · intro h
    refine ⟨?_, ?_⟩
    · rw [hs]; simp [spec_fetch_instruction, h]
    · rw [hrom, if_pos h]
  · intro h
    refine ⟨?_, computer_ticktock_ram_flag c debug h⟩
    rw [hs]; simp [spec_fetch_inM, h]
  · intro h
    rw [hs]; simp [spec_fetch_inM, h]

theorem computer_ticktock_ram (c : Computer) (debug : Bool) :
    (computer_ticktock c debug).c.ram =
      if (computer_ticktock c debug).writeM = true ∧
          ((computer_ticktock c debug).addressM : Int) < c.ramsize then
        fun i => if i = (computer_ticktock c debug).addressM then
          (computer_ticktock c debug).outM else c.ram i
      else c.ram := by
  have hs := computer_ticktock_eq_spec_execute c debug
  have h1 := congrArg (fun p => p.1.ram) hs
  have h2 := congrArg (fun p => p.2.1) hs
  have h3 := congrArg (fun p => p.2.2.1) hs
  have h4 := congrArg (fun p => p.2.2.2) hs
  simp only [spec_execute] at h1 h2 h3 h4
  rw [h1, h2, h3, h4]

/-- C9: one `computer_ticktock` leaves ROM (and both sizes) as they were; when
the step reports a write (writeM true) at an address below ramsize, the RAM
cell at that address holds the written value outM and every other cell is
unchanged; when no write is reported, or the address is not below ramsize,
RAM is unchanged; in every case at most one RAM cell differs.  The reported
write is the one requested by the CPU tick of this cycle. -/
theorem computer_ticktock_memory (c : Computer) (debug : Bool) :
    (computer_ticktock c debug).c.rom = c.rom ∧
    (computer_ticktock c debug).c.romsize = c.romsize ∧
    (computer_ticktock c debug).c.ramsize = c.ramsize ∧
    ((computer_ticktock c debug).writeM =
        (cpu_tick c.cpu (spec_fetch_instruction c) (spec_fetch_inM c) false).writeM ∧
      (computer_ticktock c debug).addressM =
        (cpu_tick c.cpu (spec_fetch_instruction c) (spec_fetch_inM c) false).addressM ∧
      (computer_ticktock c debug).outM =
        (cpu_tick c.cpu (spec_fetch_instruction c) (spec_fetch_inM c) false).outM) ∧
    (((computer_ticktock c debug).writeM = true ∧
        ((computer_ticktock c debug).addressM : Int) < c.ramsize) →
      (computer_ticktock c debug).c.ram (computer_ticktock c debug).addressM =
          (computer_ticktock c debug).outM ∧
        ∀ i, i ≠ (computer_ticktock c debug).addressM →
          (computer_ticktock c debug).c.ram i = c.ram i) ∧
    (¬ ((computer_ticktock c debug).writeM = true ∧
        ((computer_ticktock c debug).addressM : Int) < c.ramsize) →
      (computer_ticktock c debug).c.ram = c.ram) ∧
    (∃ a, ∀ i, i ≠ a → (computer_ticktock c debug).c.ram i = c.ram i) := by
  have hram := computer_ticktock_ram c debug
  refine ⟨rfl, rfl, rfl, ⟨rfl, rfl, rfl⟩, ?_, ?_, ?_⟩
  · intro h
    rw [hram, if_pos h]
    refine ⟨by simp, ?_⟩
    intro i hi
    simp [hi]
  · intro h
    rw [hram, if_neg h]
  · refine ⟨(computer_ticktock c debug).addressM, ?_⟩
    intro i hi
    rw [hram]
    split
    · simp [hi]
    · rfl

/-! ## Cycle counter -/

theorem computer_ticktock_cycles (c : Computer) (debug : Bool) :
    (computer_ticktock c debug).c.cycles = (c.cycles + 1) % 2 ^ 64 := rfl

theorem ticktocks_cycles (debug : Bool) (n : Nat) (c : Computer) (h : c.cycles < 2 ^ 64) :
    (ticktocks debug n c).cycles = (c.cycles + n) % 2 ^ 64 := by
  induction n generalizing c with
  | zero =>
    show c.cycles = (c.cycles + 0) % 2 ^ 64
    rw [Nat.add_zero, Nat.mod_eq_of_lt h]
  | succ k ih =>
    have hstep : (computer_ticktock c debug).c.cycles < 2 ^ 64 := by
      rw [computer_ticktock_cycles]
      exact Nat.mod_lt _ (by decide)
    show (ticktocks debug k (computer_ticktock c debug).c).cycles = _
    rw [ih _ hstep, computer_ticktock_cycles]
    omega

/-- C10: `computer_reset` sets the cycle counter to 0, every
`computer_ticktock` increments it by exactly 1 modulo 2^64 (whatever error
bitmask it returns), and after `computer_reset` followed by n calls of
`computer_ticktock` the counter equals n modulo 2^64. -/
theorem cycle_counting (c : Computer) (debug : Bool) (n : Nat) :
    (computer_reset c).cycles = 0 ∧
    (∀ k : Computer, (computer_ticktock k debug).c.cycles = (k.cycles + 1) % 2 ^ 64) ∧
    (ticktocks debug n (computer_reset c)).cycles = n % 2 ^ 64 := by
  refine ⟨rfl, fun k => rfl, ?_⟩
  have h0 : (computer_reset c).cycles < 2 ^ 64 := by
    show 0 < 2 ^ 64
    decide
  rw [ticktocks_cycles debug n _ h0]
  show (0 + n) % 2 ^ 64 = n % 2 ^ 64
  rw [Nat.zero_add]

/-! ## Reset -/

theorem computer_reset_eq (c : Computer) :
    computer_reset c =
      { c with cycles := 0, cpu := { A := 0, D := c.cpu.D, PC := 0 }, PC := 0, A := 0 } := by
  unfold computer_reset cpu_tock
  rw [cpu_tick_decoded]
  simp

/-- C11: from every computer state `computer_reset` yields cycle counter 0 and
PC 0, both in the CPU register and in the fetch PC of the next step, and
leaves every RAM and ROM cell (and both sizes) unchanged. -/
theorem computer_reset_effect (c : Computer) :
    (computer_reset c).cycles = 0 ∧
    (computer_reset c).cpu.PC = 0 ∧
    (computer_reset c).PC = 0 ∧
    (computer_reset c).ram = c.ram ∧
    (computer_reset c).rom = c.rom ∧
    (computer_reset c).ramsize = c.ramsize ∧
    (computer_reset c).romsize = c.romsize := by
  rw [computer_reset_eq]
  exact ⟨rfl, rfl, rfl, rfl, rfl, rfl, rfl⟩

/-- C19: `computer_reset` feeds the CPU the instruction word 0, an
A-instruction with literal 0: from every computer state it leaves the CPU's A
register and the fetch A equal to 0, while D keeps its previous value. -/
theorem computer_reset_clears_A_keeps_D (c : Computer) :
    (0 : Nat).testBit 15 = false ∧
    (computer_reset c).cpu = (cpu_tick c.cpu 0 0 true).cpu ∧
    (computer_reset c).cpu.A = 0 ∧
    (computer_reset c).A = 0 ∧
    (computer_reset c).cpu.D = c.cpu.D := by
  refine ⟨by decide, rfl, ?_, ?_, ?_⟩ <;> rw [computer_reset_eq]

/-! ## End-to-end program -/

theorem computer_ticktock_cpu (c : Computer) (debug : Bool) :
    (computer_ticktock c debug).c.cpu =
      (cpu_tick c.cpu (spec_fetch_instruction c) (spec_fetch_inM c) false).cpu := rfl

theorem computer_ticktock_PC (c : Computer) (debug : Bool) :
    (computer_ticktock c debug).c.PC = (computer_ticktock c debug).c.cpu.PC := rfl

theorem computer_ticktock_A (c : Computer) (debug : Bool) :
    (computer_ticktock c debug).c.A = (computer_ticktock c debug).c.cpu.A := rfl

theorem spec_fetch_instruction_in_range (c : Computer) (h : (c.PC : Int) < c.romsize) :
    spec_fetch_instruction c = c.rom c.PC := by
  unfold spec_fetch_instruction
  rw [if_pos h]

theorem cpu_tick_load_2 (cpu : CPU) (inM : Nat) :
    (cpu_tick cpu 0x0002 inM false).cpu = { A := 2, D := cpu.D, PC := (cpu.PC + 1) % 65536 } := by
  rw [cpu_tick_decoded]
  simp +decide

theorem cpu_tick_D_gets_A (cpu : CPU) (inM : Nat) (hA : cpu.A < 65536) :
    (cpu_tick cpu 0xEC10 inM false).cpu =
      { A := cpu.A, D := cpu.A, PC := (cpu.PC + 1) % 65536 } := by
  rw [cpu_tick_decoded]
  have hout : (spec_alu cpu 0xEC10 inM).out = cpu.A := by
    have h := and_65535_word cpu.A hA
    simp +decide [spec_alu, spec_operand, ALU, not16, h]
  simp +decide [hout, spec_jump]

/-- C12: on a computer with romsize at least 2 whose ROM holds 0x0002 at word
0 and 0xEC10 at word 1, from any registers and RAM contents, `computer_reset`
followed by two `computer_ticktock` steps leaves D = 2 and PC = 2 (CPU
register and fetch PC), with the cycle counter at 2. -/
theorem end_to_end_program (c : Computer) (debug : Bool)
    (hsize : 2 ≤ c.romsize) (h0 : c.rom 0 = 0x0002) (h1 : c.rom 1 = 0xEC10) :
    (ticktocks debug 2 (computer_reset c)).cpu.D = 2 ∧
    (ticktocks debug 2 (computer_reset c)).cpu.PC = 2 ∧
    (ticktocks debug 2 (computer_reset c)).PC = 2 ∧
    (ticktocks debug 2 (computer_reset c)).cycles = 2 := by
  have e1 : (computer_ticktock (computer_reset c) debug).c.cpu =
      { A := 2, D := c.cpu.D, PC := 1 } := by
    rw [computer_ticktock_cpu, spec_fetch_instruction_in_range]
    · rw [computer_reset_eq]
      show (cpu_tick _ (c.rom 0) _ false).cpu = _
      rw [h0, cpu_tick_load_2]
      rfl
    · rw [computer_reset_eq]
      show ((0 : Nat) : Int) < c.romsize
      omega
  have e2 : (computer_ticktock (computer_ticktock (computer_reset c) debug).c debug).c.cpu =
      { A := 2, D := 2, PC := 2 } := by
    have hpc : (computer_ticktock (computer_reset c) debug).c.PC = 1 := by
      rw [computer_ticktock_PC, e1]
    have hA : (computer_ticktock (computer_reset c) debug).c.cpu.A < 65536 := by
      rw [e1]
      show (2 : Nat) < 65536
      decide
    rw [computer_ticktock_cpu, spec_fetch_instruction_in_range]
    · rw [hpc]
      show (cpu_tick _ (c.rom 1) _ false).cpu = _
      rw [h1, cpu_tick_D_gets_A _ _ hA, e1]
      rfl
    · rw [hpc]
      show ((1 : Nat) : Int) < c.romsize
      omega
  have hc := ticktocks_cycles debug 2 (computer_reset c) (by show 0 < 2 ^ 64; decide)
  refine ⟨?_, ?_, ?_, ?_⟩
  · show (computer_ticktock (computer_ticktock (computer_reset c) debug).c debug).c.cpu.D = 2
    rw [e2]
  · show (computer_ticktock (computer_ticktock (computer_reset c) debug).c debug).c.cpu.PC = 2
    rw [e2]
  · show (computer_ticktock (computer_ticktock (computer_reset c) debug).c debug).c.PC = 2
    rw [computer_ticktock_PC, e2]
  · rw [hc]
    rfl

/-- C12 witness: `passThroughComputer` (registers 9, 11, 13, cycle counter
99) ends with D = 2, PC = 2 and cycle counter 2. -/
theorem end_to_end_program_witness :
    ((2 : Int) ≤ passThroughComputer.romsize ∧ passThroughComputer.rom 0 = 0x0002 ∧
      passThroughComputer.rom 1 = 0xEC10) ∧
    ((ticktocks false 2 (computer_reset passThroughComputer)).cpu.D = 2 ∧
     (ticktocks false 2 (computer_reset passThroughComputer)).cpu.PC = 2 ∧
     (ticktocks false 2 (computer_reset passThroughComputer)).PC = 2 ∧
     (ticktocks false 2 (computer_reset passThroughComputer)).cycles = 2) :=
  ⟨⟨by decide, by decide, by decide⟩,
    end_to_end_program passThroughComputer false (by decide) (by decide) (by decide)⟩

/-! ## Batch run -/

theorem ticktocks_succ (debug : Bool) (k : Nat) (c : Computer) :
    ticktocks debug (k + 1) c = (computer_ticktock (ticktocks debug k c) debug).c := by
  induction k generalizing c with
  | zero => rfl
  | succ j ih =>
    show ticktocks debug (j + 1) (computer_ticktock c debug).c = _
    rw [ih]
    rfl

theorem maxcycles_u64_of_nat (n : Nat) (h : n < 2 ^ 64) : maxcycles_u64 (n : Int) = n := by
  unfold maxcycles_u64
  omega

theorem run_loop_exits (debug : Bool) (maxcycles : Int) (k : Nat) :
    ∀ (fuel : Nat) (s : Computer),
      (∀ j, j < k → (computer_ticktock (ticktocks debug j s) debug).error = 0) →
      (computer_ticktock (ticktocks debug k s) debug).error ≠ 0 →
      (∀ j, j ≤ k → maxcycles = 0 ∨ (ticktocks debug j s).cycles < maxcycles_u64 maxcycles) →
      k < fuel →
      run_loop debug false maxcycles fuel s =
        some (RunResult.exited 1 (computer_ticktock (ticktocks debug k s) debug).error
          (computer_ticktock (ticktocks debug k s) debug).c) := by
  induction k with
  | zero =>
    intro fuel s _ herr hlim hfuel
    obtain ⟨f, rfl⟩ : ∃ f, fuel = f + 1 := ⟨fuel - 1, by omega⟩
    have hc := hlim 0 (Nat.le_refl 0)
    have herr0 : (computer_ticktock s debug).error ≠ 0 := herr
    have hc0 : maxcycles = 0 ∨ s.cycles < maxcycles_u64 maxcycles := hc
    show (if maxcycles = 0 ∨ s.cycles < maxcycles_u64 maxcycles then _ else _) = _
    rw [if_pos hc0, if_pos ⟨herr0, rfl⟩]
    rfl
  | succ k ih =>
    intro fuel s hfirst herr hlim hfuel
    obtain ⟨f, rfl⟩ : ∃ f, fuel = f + 1 := ⟨fuel - 1, by omega⟩
    have hc0 : maxcycles = 0 ∨ s.cycles < maxcycles_u64 maxcycles := hlim 0 (Nat.zero_le _)
    have h0 : (computer_ticktock s debug).error = 0 := hfirst 0 (Nat.succ_pos k)
    have hnot : ¬ ((computer_ticktock s debug).error ≠ 0 ∧ false = false) := fun h => h.1 h0
    show (if maxcycles = 0 ∨ s.cycles < maxcycles_u64 maxcycles then _ else _) = _
    rw [if_pos hc0, if_neg hnot]
    exact ih f (computer_ticktock s debug).c
      (fun j hj => hfirst (j + 1) (Nat.succ_lt_succ hj))
      herr
      (fun j hj => hlim (j + 1) (Nat.succ_le_succ hj))
      (by omega)

theorem run_loop_completes (debug ignore : Bool) (maxcycles : Int) (hm : maxcycles ≠ 0)
    (hM : maxcycles_u64 maxcycles < 2 ^ 64) (m : Nat) :
    ∀ (fuel : Nat) (s : Computer),
      s.cycles + m = maxcycles_u64 maxcycles →
      (ignore = true ∨
        ∀ j, j < m → (computer_ticktock (ticktocks debug j s) debug).error = 0) →
      m < fuel →
      run_loop debug ignore maxcycles fuel s = some (RunResult.dumped (ticktocks debug m s)) := by
  induction m with
  | zero =>
    intro fuel s hcyc _ hfuel
    obtain ⟨f, rfl⟩ : ∃ f, fuel = f + 1 := ⟨fuel - 1, by omega⟩
    have hc : ¬ (maxcycles = 0 ∨ s.cycles < maxcycles_u64 maxcycles) := by
      intro h
      rcases h with h | h
      · exact hm h
      · omega
    show (if maxcycles = 0 ∨ s.cycles < maxcycles_u64 maxcycles then _ else _) = _
    rw [if_neg hc]
    rfl
  | succ m ih =>
    intro fuel s hcyc hok hfuel
    obtain ⟨f, rfl⟩ : ∃ f, fuel = f + 1 := ⟨fuel - 1, by omega⟩
    have hc : maxcycles = 0 ∨ s.cycles < maxcycles_u64 maxcycles := Or.inr (by omega)
    have hnot : ¬ ((computer_ticktock s debug).error ≠ 0 ∧ ignore = false) := by
      intro h
      rcases hok with hi | he
      · rw [hi] at h
        exact Bool.noConfusion h.2
      · exact h.1 (he 0 (Nat.succ_pos m))
    have hnext : (computer_ticktock s debug).c.cycles + m = maxcycles_u64 maxcycles := by
      rw [computer_ticktock_cycles]
      omega
    show (if maxcycles = 0 ∨ s.cycles < maxcycles_u64 maxcycles then _ else _) = _
    rw [if_pos hc, if_neg hnot]
    exact ih f (computer_ticktock s debug).c hnext
      (hok.imp id (fun he j hj => he (j + 1) (Nat.succ_lt_succ hj)))
      (by omega)

/-- C13: `computer_run` with ignore = false resets and then steps one at a
time; if step k + 1 after the reset is the first one to return a non-zero
error bitmask and the cycle limit is not reached before it (maxcycles is 0,
or k is below maxcycles), the run ends by `exit(1)` right after that step:
the computer is the one after exactly k + 1 steps and no further step is
executed.  Any fuel above k is enough for the loop to get there. -/
theorem computer_run_halts_on_first_error (c : Computer) (maxcycles : Int) (debug : Bool)
    (k fuel : Nat)
    (hfirst : ∀ j, j < k →
      (computer_ticktock (ticktocks debug j (computer_reset c)) debug).error = 0)
    (herr : (computer_ticktock (ticktocks debug k (computer_reset c)) debug).error ≠ 0)
    (hlimit : maxcycles = 0 ∨ k < maxcycles_u64 maxcycles)
    (hfuel : k < fuel) :
    computer_run fuel c maxcycles debug false =
      some (RunResult.exited 1
        (computer_ticktock (ticktocks debug k (computer_reset c)) debug).error
        (ticktocks debug (k + 1) (computer_reset c))) ∧
    (ticktocks debug (k + 1) (computer_reset c)).cycles = (k + 1) % 2 ^ 64 := by
  have h0 : (computer_reset c).cycles < 2 ^ 64 := by
    show 0 < 2 ^ 64
    decide
  have hcyc : ∀ j, (ticktocks debug j (computer_reset c)).cycles = j % 2 ^ 64 := by
    intro j
    rw [ticktocks_cycles debug j _ h0]
    show (0 + j) % 2 ^ 64 = j % 2 ^ 64
    rw [Nat.zero_add]
  refine ⟨?_, hcyc (k + 1)⟩
  rw [ticktocks_succ]
  unfold computer_run
  apply run_loop_exits debug maxcycles k fuel (computer_reset c) hfirst herr _ hfuel
  intro j hj
  rcases hlimit with h | h
  · exact Or.inl h
  · right
    rw [hcyc j]
    have : j % 2 ^ 64 ≤ j := Nat.mod_le _ _
    omega

/-- C13 witness: the two-word program `@1; M=1` on a computer with one RAM
word, run without a cycle limit: the first step is clean, the second one
reports an error, and the run ends by `exit(1)` with the cycle counter at 2. -/
theorem computer_run_halts_on_first_error_witness :
    ((∀ j, j < 1 →
        (computer_ticktock (ticktocks false j
          (computer_reset { computer_init 2 1 with rom := writeFaultProgram })) false).error = 0) ∧
      (computer_ticktock (ticktocks false 1
          (computer_reset { computer_init 2 1 with rom := writeFaultProgram })) false).error ≠ 0 ∧
      ((0 : Int) = 0 ∨ 1 < maxcycles_u64 0) ∧ 1 < 2) ∧
    (computer_run 2 { computer_init 2 1 with rom := writeFaultProgram } 0 false false =
      some (RunResult.exited 1
        (computer_ticktock (ticktocks false 1
          (computer_reset { computer_init 2 1 with rom := writeFaultProgram })) false).error
        (ticktocks false (1 + 1)
          (computer_reset { computer_init 2 1 with rom := writeFaultProgram }))) ∧
      (ticktocks false (1 + 1)
        (computer_reset { computer_init 2 1 with rom := writeFaultProgram })).cycles =
        (1 + 1) % 2 ^ 64) :=
  ⟨⟨by decide, by decide, Or.inl rfl, by decide⟩,
    computer_run_halts_on_first_error { computer_init 2 1 with rom := writeFaultProgram } 0 false
      1 2 (by decide) (by decide) (Or.inl rfl) (by decide)⟩

/-- C14: for a cycle limit n with 1 ≤ n (and n within the range of `int`),
`computer_run` with ignore = true, or with ignore = false when none of the
first n steps reports an error, leaves the loop after exactly n steps: it
returns with the computer obtained by `computer_reset` followed by n
`computer_ticktock` calls, whose cycle counter is n.  Any fuel above n is
enough for the loop to end. -/
theorem computer_run_reaches_limit (c : Computer) (debug ignore : Bool) (n fuel : Nat)
    (hn : 1 ≤ n) (hint : n < 2 ^ 31)
    (hok : ignore = true ∨ ∀ j, j < n →
      (computer_ticktock (ticktocks debug j (computer_reset c)) debug).error = 0)
    (hfuel : n < fuel) :
    computer_run fuel c (n : Int) debug ignore =
      some (RunResult.dumped (ticktocks debug n (computer_reset c))) ∧
    (ticktocks debug n (computer_reset c)).cycles = n := by
  have h64 : n < 2 ^ 64 := lt_trans hint (by decide)
  have hM : maxcycles_u64 (n : Int) = n := maxcycles_u64_of_nat n h64
  have h0 : (computer_reset c).cycles < 2 ^ 64 := by
    show 0 < 2 ^ 64
    decide
  refine ⟨?_, ?_⟩
  · unfold computer_run
    apply run_loop_completes debug ignore (n : Int) (by omega) (by rw [hM]; exact h64) n fuel
      (computer_reset c) _ hok hfuel
    rw [hM]
    show 0 + n = n
    rw [Nat.zero_add]
  · rw [ticktocks_cycles debug n _ h0]
    show (0 + n) % 2 ^ 64 = n
    rw [Nat.zero_add, Nat.mod_eq_of_lt h64]

/-- C14 witness: `passThroughComputer` run with cycle limit 2 and errors
ignored returns after two steps with the cycle counter at 2. -/
theorem computer_run_reaches_limit_witness :
    ((1 ≤ 2 ∧ 2 < 2 ^ 31) ∧ 2 < 3) ∧
    (computer_run 3 passThroughComputer ((2 : Nat) : Int) false true =
      some (RunResult.dumped (ticktocks false 2 (computer_reset passThroughComputer))) ∧
     (ticktocks false 2 (computer_reset passThroughComputer)).cycles = 2) :=
  ⟨⟨⟨by decide, by decide⟩, by decide⟩,
    computer_run_reaches_limit passThroughComputer false true 2 3 (by decide) (by decide)
      (Or.inl rfl) (by decide)⟩

/-! ## Memory-mapped helpers -/

/-- C15: for an address below ramsize, after `computer_mmio_set` at that
address `computer_mmio_get` returns the value set there and returns for every
other address what it returned before; ROM, both sizes, the CPU registers,
the fetch PC and A and the cycle counter are unchanged. -/
theorem mmio_set_get (c : Computer) (addr v : Nat) (h : (addr : Int) < c.ramsize) :
    computer_mmio_get (computer_mmio_set c addr v) addr = v ∧
    (∀ other, other ≠ addr →
      computer_mmio_get (computer_mmio_set c addr v) other = computer_mmio_get c other) ∧
    (computer_mmio_set c addr v).rom = c.rom ∧
    (computer_mmio_set c addr v).romsize = c.romsize ∧
    (computer_mmio_set c addr v).ramsize = c.ramsize ∧
    (computer_mmio_set c addr v).cpu = c.cpu ∧
    (computer_mmio_set c addr v).PC = c.PC ∧
    (computer_mmio_set c addr v).A = c.A ∧
    (computer_mmio_set c addr v).cycles = c.cycles := by
  unfold computer_mmio_set
  rw [if_pos h]
  refine ⟨?_, ?_, rfl, rfl, rfl, rfl, rfl, rfl, rfl⟩
  · unfold computer_mmio_get
    simp [h]
  · intro other hne
    unfold computer_mmio_get
    simp [hne]

/-- C15 witness: setting address 3 of `passThroughComputer` (ramsize 4) to
500 and reading it back. -/
theorem mmio_set_get_witness :
    ((3 : Nat) : Int) < passThroughComputer.ramsize ∧
    (computer_mmio_get (computer_mmio_set passThroughComputer 3 500) 3 = 500 ∧
     computer_mmio_get (computer_mmio_set passThroughComputer 3 500) 2 = 7) :=
  ⟨by decide,
    ⟨(mmio_set_get passThroughComputer 3 500 (by decide)).1,
     ((mmio_set_get passThroughComputer 3 500 (by decide)).2.1 2 (by decide)).trans
       (by decide)⟩⟩

/-- C16: for an address not below ramsize, `computer_mmio_get` returns 0 and
`computer_mmio_set` returns the computer unchanged (RAM, ROM, registers,
fetch addresses, cycle counter); the next `computer_ticktock` therefore
returns the same error bitmask as without the call. -/
theorem mmio_out_of_range (c : Computer) (addr v : Nat) (debug : Bool)
    (h : ¬ (addr : Int) < c.ramsize) :
    computer_mmio_get c addr = 0 ∧
    computer_mmio_set c addr v = c ∧
    (computer_ticktock (computer_mmio_set c addr v) debug).error =
      (computer_ticktock c debug).error := by
  have hset : computer_mmio_set c addr v = c := by
    unfold computer_mmio_set
    rw [if_neg h]
  refine ⟨?_, hset, ?_⟩
  · unfold computer_mmio_get
    rw [if_neg h]
  · rw [hset]

/-- C16 witness: address 4 of `passThroughComputer` (ramsize 4). -/
theorem mmio_out_of_range_witness :
    (¬ ((4 : Nat) : Int) < passThroughComputer.ramsize) ∧
    (computer_mmio_get passThroughComputer 4 = 0 ∧
     computer_mmio_set passThroughComputer 4 500 = passThroughComputer ∧
     (computer_ticktock (computer_mmio_set passThroughComputer 4 500) false).error =
       (computer_ticktock passThroughComputer false).error) :=
  ⟨by decide, mmio_out_of_range passThroughComputer 4 500 false (by decide)⟩

/-! ## Fetch-address coherence -/

theorem apply_op_coherent (c : Computer) (op : Op)
    (h : c.PC = c.cpu.PC ∧ c.A = c.cpu.A) :
    (apply_op c op).PC = (apply_op c op).cpu.PC ∧ (apply_op c op).A = (apply_op c op).cpu.A := by
  cases op with
  | reset => exact ⟨rfl, rfl⟩
  | ticktock debug => exact ⟨rfl, rfl⟩
  | mmio_set addr val =>
    show (computer_mmio_set c addr val).PC = (computer_mmio_set c addr val).cpu.PC ∧
      (computer_mmio_set c addr val).A = (computer_mmio_set c addr val).cpu.A
    unfold computer_mmio_set
    split
    · exact h
    · exact h

theorem apply_ops_coherent (ops : List Op) :
    ∀ c : Computer, (c.PC = c.cpu.PC ∧ c.A = c.cpu.A) →
      (apply_ops c ops).PC = (apply_ops c ops).cpu.PC ∧
      (apply_ops c ops).A = (apply_ops c ops).cpu.A := by
  induction ops with
  | nil => intro c h; exact h
  | cons op rest ih =>
    intro c h
    show (apply_ops (apply_op c op) rest).PC = _ ∧ _
    exact ih (apply_op c op) (apply_op_coherent c op h)

theorem computer_ticktock_addressM (c : Computer) (debug : Bool) :
    (computer_ticktock c debug).addressM = c.cpu.A := rfl

/-- C18: in every computer reached from `computer_init` (with any ROM and RAM
contents loaded) by any sequence of `computer_reset`, `computer_ticktock`
and `computer_mmio_set` calls, the fetch PC equals the CPU's PC register and
the fetch A equals the CPU's A register; hence the write address returned by
the next `computer_ticktock` is the address that step fetched inM from, and it
is out of range exactly when that fetch was. -/
theorem fetch_address_coherence (romsize ramsize : Int) (rom ram : Nat → Nat)
    (ops : List Op) (debug : Bool) :
    (apply_ops { computer_init romsize ramsize with rom := rom, ram := ram } ops).PC =
      (apply_ops { computer_init romsize ramsize with rom := rom, ram := ram } ops).cpu.PC ∧
    (apply_ops { computer_init romsize ramsize with rom := rom, ram := ram } ops).A =
      (apply_ops { computer_init romsize ramsize with rom := rom, ram := ram } ops).cpu.A ∧
    (computer_ticktock
        (apply_ops { computer_init romsize ramsize with rom := rom, ram := ram } ops)
        debug).addressM =
      (apply_ops { computer_init romsize ramsize with rom := rom, ram := ram } ops).A ∧
    ((((computer_ticktock
        (apply_ops { computer_init romsize ramsize with rom := rom, ram := ram } ops)
        debug).addressM : Nat) : Int) <
        (apply_ops { computer_init romsize ramsize with rom := rom, ram := ram } ops).ramsize ↔
      (((apply_ops { computer_init romsize ramsize with rom := rom, ram := ram } ops).A : Nat)
        : Int) <
        (apply_ops { computer_init romsize ramsize with rom := rom, ram := ram } ops).ramsize) := by
  have hc := apply_ops_coherent ops
    { computer_init romsize ramsize with rom := rom, ram := ram } ⟨rfl, rfl⟩
  have ha := computer_ticktock_addressM
    (apply_ops { computer_init romsize ramsize with rom := rom, ram := ram } ops) debug
  refine ⟨hc.1, hc.2, ?_, ?_⟩
  · rw [ha, hc.2]
  · rw [ha, hc.2]

/-! ## Jump conditions -/

theorem testBit_low_mod8 (n k : Nat) (hk : k < 3) : n.testBit k = (n % 8).testBit k := by
  have h := Nat.testBit_mod_two_pow n 3 k
  have e : (2 : Nat) ^ 3 = 8 := by decide
  rw [e] at h
  rw [h]
  simp [hk]

theorem testBit_high_div8 (n k : Nat) : n.testBit (3 + k) = (n / 8).testBit k := by
  have h := Nat.testBit_shiftRight (i := 3) (j := k) n
  rw [Nat.shiftRight_eq_div_pow] at h
  exact h.symm

theorem testBit_complement_mod8 (a b k : Nat) (h : a % 8 + b % 8 = 7) (hk : k < 3) :
    b.testBit k = !a.testBit k := by
  rw [testBit_low_mod8 a k hk, testBit_low_mod8 b k hk]
  have ha : a % 8 < 8 := Nat.mod_lt _ (by decide)
  have hb : b % 8 = 7 - a % 8 := by omega
  rw [hb]
  generalize a % 8 = r at ha
  interval_cases r <;> interval_cases k <;> decide

theorem ALU_not_zero_and_negative (x y comp : Nat) :
    ¬ ((ALU x y comp).zr = true ∧ (ALU x y comp).ng = true) := by
  rw [ALU_zr, ALU_ng]
  intro h
  have h0 : (ALU x y comp).out = 0 := of_decide_eq_true h.1
  rw [h0] at h
  simp at h

theorem cpu_tick_PC (cpu : CPU) (instruction inM : Nat)
    (hkind : instruction.testBit 15 = true) :
    (cpu_tick cpu instruction inM false).cpu.PC =
      if spec_jump instruction (spec_alu cpu instruction inM) = true then cpu.A
      else (cpu.PC + 1) % 65536 := by
  rw [cpu_tick_decoded]
  simp [hkind]

theorem spec_alu_congr (cpu : CPU) (i1 i2 inM : Nat) (h : i1 / 8 = i2 / 8) :
    spec_alu cpu i1 inM = spec_alu cpu i2 inM := by
  have h12 : i1.testBit 12 = i2.testBit 12 := by
    have e1 := testBit_high_div8 i1 9
    have e2 := testBit_high_div8 i2 9
    rw [h] at e1
    exact e1.trans e2.symm
  have hc : i1 / 64 % 64 = i2 / 64 % 64 := by omega
  unfold spec_alu spec_operand
  rw [h12, hc]

/-- C20: for every CPU state, memory value and C-instruction executed with
reset false, exactly one of negative, zero, positive (neither zero nor
negative) holds for the ALU result of the step; with jump bits 111 the PC
becomes the old A, with jump bits 000 it becomes (old PC + 1) mod 2^16, and
of two C-instructions that differ only in complementary jump fields exactly
one jumps to the old A while the other one falls through. -/
theorem jump_conditions_partition (cpu : CPU) (instruction inM : Nat)
    (hkind : instruction.testBit 15 = true) :
    (cpu_tick cpu instruction inM false).outM = (spec_alu cpu instruction inM).out ∧
    (((spec_alu cpu instruction inM).ng = true ∧ (spec_alu cpu instruction inM).zr = false) ∨
      ((spec_alu cpu instruction inM).zr = true ∧ (spec_alu cpu instruction inM).ng = false) ∨
      ((spec_alu cpu instruction inM).zr = false ∧
        (spec_alu cpu instruction inM).ng = false)) ∧
    ¬ ((spec_alu cpu instruction inM).zr = true ∧ (spec_alu cpu instruction inM).ng = true) ∧
    (instruction % 8 = 7 → (cpu_tick cpu instruction inM false).cpu.PC = cpu.A) ∧
    (instruction % 8 = 0 →
      (cpu_tick cpu instruction inM false).cpu.PC = (cpu.PC + 1) % 65536) ∧
    (∀ other : Nat, other / 8 = instruction / 8 → instruction % 8 + other % 8 = 7 →
      ((cpu_tick cpu instruction inM false).cpu.PC = cpu.A ∧
        (cpu_tick cpu other inM false).cpu.PC = (cpu.PC + 1) % 65536 ∧
        spec_jump instruction (spec_alu cpu instruction inM) = true ∧
        spec_jump other (spec_alu cpu other inM) = false) ∨
      ((cpu_tick cpu other inM false).cpu.PC = cpu.A ∧
        (cpu_tick cpu instruction inM false).cpu.PC = (cpu.PC + 1) % 65536 ∧
        spec_jump other (spec_alu cpu other inM) = true ∧
        spec_jump instruction (spec_alu cpu instruction inM) = false)) := by
  have hnot := ALU_not_zero_and_negative cpu.D (spec_operand cpu instruction inM)
    (instruction / 64 % 64)
  have hpc := cpu_tick_PC cpu instruction inM hkind
  have hnot2 : ¬ ((spec_alu cpu instruction inM).zr = true ∧
      (spec_alu cpu instruction inM).ng = true) := hnot
  refine ⟨?_, ?_, hnot2, ?_, ?_, ?_⟩
  · rw [cpu_tick_decoded]
  · revert hnot2
    cases (spec_alu cpu instruction inM).zr <;> cases (spec_alu cpu instruction inM).ng <;> simp
  · intro h7
    have b0 : instruction.testBit 0 = true := by
      rw [testBit_low_mod8 _ 0 (by decide), h7]; decide
    have b1 : instruction.testBit 1 = true := by
      rw [testBit_low_mod8 _ 1 (by decide), h7]; decide
    have b2 : instruction.testBit 2 = true := by
      rw [testBit_low_mod8 _ 2 (by decide), h7]; decide
    rw [hpc]
    revert hnot2
    unfold spec_jump
    rw [b0, b1, b2]
    cases (spec_alu cpu instruction inM).zr <;> cases (spec_alu cpu instruction inM).ng <;> simp
  · intro h0
    have b0 : instruction.testBit 0 = false := by
      rw [testBit_low_mod8 _ 0 (by decide), h0]; decide
    have b1 : instruction.testBit 1 = false := by
      rw [testBit_low_mod8 _ 1 (by decide), h0]; decide
    have b2 : instruction.testBit 2 = false := by
      rw [testBit_low_mod8 _ 2 (by decide), h0]; decide
    rw [hpc]
    unfold spec_jump
    rw [b0, b1, b2]
    simp
  · intro other hdiv hmod
    have hk2 : other.testBit 15 = true := by
      have e1 := testBit_high_div8 other 12
      have e2 := testBit_high_div8 instruction 12
      rw [hdiv] at e1
      exact (e1.trans e2.symm).trans hkind
    have halu := spec_alu_congr cpu other instruction inM hdiv
    have c0 := testBit_complement_mod8 instruction other 0 hmod (by decide)
    have c1 := testBit_complement_mod8 instruction other 1 hmod (by decide)
    have c2 := testBit_complement_mod8 instruction other 2 hmod (by decide)
    rw [hpc, cpu_tick_PC cpu other inM hk2, halu]
    revert hnot2
    unfold spec_jump
    rw [c0, c1, c2]
    cases instruction.testBit 0 <;> cases instruction.testBit 1 <;>
      cases instruction.testBit 2 <;> cases (spec_alu cpu instruction inM).zr <;>
      cases (spec_alu cpu instruction inM).ng <;> simp

/-- C20 witness: `D;JGT` (0xE301) and its complement `D;JLE` (0xE306) from
D = 7, A = 100, PC = 3: the first jumps to 100, the second falls through
to 4. -/
theorem jump_conditions_partition_witness :
    (0xE301 : Nat).testBit 15 = true ∧
    ((cpu_tick ⟨100, 7, 3⟩ 0xE301 0 false).cpu.PC = 100 ∧
     (cpu_tick ⟨100, 7, 3⟩ 0xE306 0 false).cpu.PC = 4 ∧
     ¬ ((spec_alu ⟨100, 7, 3⟩ 0xE301 0).zr = true ∧ (spec_alu ⟨100, 7, 3⟩ 0xE301 0).ng = true)) :=
  ⟨by decide,
    ⟨by decide, by decide, (jump_conditions_partition ⟨100, 7, 3⟩ 0xE301 0 (by decide)).2.2.1⟩⟩

/-! ## ROM loader -/

/-- C17: evaluation at the failing input.  A well-formed line is stored
masked to 16 bits and a line with a letter ends the load naming its line
number, but the one-line text "-1" is not rejected: `strtoul` takes the minus
sign, nothing is left over, and the word 0xFFFF is stored at ROM index 0. -/
theorem computer_loadrom_accepts_signed_line :
    loaded_word (computer_loadrom (computer_init 2 1) "0000000000000010\n".toList) 0 = some 2 ∧
    invalid_line (computer_loadrom (computer_init 2 1) "10\n1x1\n".toList) = some 2 ∧
    invalid_line (computer_loadrom (computer_init 2 1) "-1\n".toList) = none ∧
    loaded_word (computer_loadrom (computer_init 2 1) "-1\n".toList) 0 = some 0xFFFF := by
  decide

end Hack
